import Mathlib

/-!
Verification development for the cyclone population-exposure script
(standalone-code.py).  The script converts a population raster into
weighted points, spatially joins them with administrative polygons,
partitions nested cyclone wind-speed polygons into disjoint bands, and
apportions each unit's population across bands by area overlap.

Shallow embedding conventions:
* Geometries are finite sets of grid cells (Finset (ℤ × ℤ)); geometric
  difference, intersection and union are the set operations the shapely
  calls perform, and area is cardinality (a finitely additive measure,
  which is all the proofs use).
* Raster values, weights, areas and fractions are rationals; the IEEE
  special values produced by pandas division (NaN, ±inf) are modelled by
  the FVal type in the presentation stage, where they actually arise.
* pandas round(2) is modelled as rounding 100*x to the nearest integer
  over ℚ (ties are irrelevant to every statement below).
-/

abbrev Cell : Type := ℤ × ℤ

abbrev Geom : Type := Finset Cell

/-- Area of a geometry: the number of unit cells it covers (the counting
measure standing in for the projected-CRS area of line 105). -/
def area (g : Geom) : ℚ := g.card

/-- The four edge-adjacent neighbours of a grid cell, the 4-connectivity
used by rasterio.features.shapes when it merges pixels into regions. -/
def neighbors (c : Cell) : List Cell :=
  [(c.1 + 1, c.2), (c.1 - 1, c.2), (c.1, c.2 + 1), (c.1, c.2 - 1)]

/-- One step of region growing: add to the component every non-masked cell
that has the region's value, is not yet in the component, and touches a
component cell.  Mirrors the connected-component merging performed inside
rasterio.features.shapes (line 20). -/
def growOnce (cells : List (Cell × ℚ)) (v : ℚ) (comp : List Cell) : List Cell :=
  comp ++ (cells.filter (fun p =>
    p.2 == v && !(comp.contains p.1) && comp.any (fun c => (neighbors c).contains p.1))).map (fun p => p.1)

/-- The contiguous equal-value region containing cell c (value v), obtained
by growing cells.length times, which saturates the flood fill. -/
def component (cells : List (Cell × ℚ)) (c : Cell) (v : ℚ) : List Cell :=
  (growOnce cells v)^[cells.length] [c]

/-- Region extraction worker: peel off the component of the first
remaining cell, emit it with its value, and continue on the cells not
absorbed into that component.  The fuel argument only bounds the
recursion; cells.length steps always suffice because every round removes
at least the head cell. -/
def shapesGo : ℕ → List (Cell × ℚ) → List (List Cell × ℚ)
  | 0, _ => []
  | _, [] => []
  | fuel + 1, (c, v) :: rest =>
    (component ((c, v) :: rest) c v, v) ::
      shapesGo fuel
        (rest.filter (fun p => !((component ((c, v) :: rest) c v).contains p.1)))

/-- rasterio.features.shapes (line 20): split the non-masked cells of the
raster into contiguous regions of identical value, returning each region
with its single shared value.  No-data cells are simply absent from the
input list. -/
def shapesOf (cells : List (Cell × ℚ)) : List (List Cell × ℚ) :=
  shapesGo cells.length cells

/-- pop_gis (line 26): one weighted point per region, weighted by the
region's value.  The location is the region's centroid; for a
single-pixel region the centroid is that pixel, which is the only case
the statements below evaluate locations at. -/
def samplePoints (shapes : List (List Cell × ℚ)) : List (Cell × ℚ) :=
  shapes.map (fun s => (s.1.headD (0, 0), s.2))

/-- The points of pts that fall inside geometry g (the intersects
predicate of the sjoin at line 43; for centroid points, intersects and
contains coincide in the cell model). -/
def ptsIn (g : Geom) (pts : List (Cell × ℚ)) : List (Cell × ℚ) :=
  pts.filter (fun p => p.1 ∈ g)

/-- pop_by_adm (lines 43-56): inner spatial join of administrative units
with the population points followed by a per-unit groupby summing the
point weights.  Units matching no point produce no join row and are
dropped by the inner join; each remaining unit carries the sum of the
weights of its matching points. -/
def pop_by_adm (adm : List (ℕ × Geom)) (pts : List (Cell × ℚ)) :
    List ((ℕ × Geom) × ℚ) :=
  (adm.filter (fun u => !(ptsIn u.2 pts).isEmpty)).map
    (fun u => (u, ((ptsIn u.2 pts).map (fun p => p.2)).sum))

/-- The three disjoint wind bands of lines 82-83: band60 = poly60 - poly90,
band90 = poly90 - poly120, band120 = poly120 (kept in ascending
wind-speed order, as cyclone_gis is after the sort at line 70). -/
def bandsOf (p60 p90 p120 : Geom) : List (ℚ × Geom) :=
  [(60, p60 \ p90), (90, p90 \ p120), (120, p120)]

/-- pandas Series.item (lines 79-81): succeeds only on a single-element
selection, otherwise raises. -/
def itemG (l : List Geom) : Except String Geom :=
  match l with
  | [g] => .ok g
  | _ => .error "can only convert an array of size 1 to a scalar"

/-- cyclone_gis band computation (lines 79-83): select the single polygon
of each of the three expected wind speeds in order (the first failing
selection raises) and replace the 60 and 90 geometries by the
differences.  Any selection that is not exactly one row makes item
raise; no geometry check of any kind is performed. -/
def cycloneBands (rows : List (ℚ × Geom)) : Except String (List (ℚ × Geom)) :=
  match itemG ((rows.filter (fun r => r.1 == 60)).map (fun r => r.2)) with
  | .error e => .error e
  | .ok p60 =>
    match itemG ((rows.filter (fun r => r.1 == 90)).map (fun r => r.2)) with
    | .error e => .error e
    | .ok p90 =>
      match itemG ((rows.filter (fun r => r.1 == 120)).map (fun r => r.2)) with
      | .error e => .error e
      | .ok p120 => .ok (bandsOf p60 p90 p120)

/-- Modelled from the spec (section 4.3 BandPartitioner): given threshold
polygons sorted ascending by threshold, each band is this polygon minus
the polygon of the next-higher threshold, except the highest, kept
unmodified.  Used only to compare the script's fixed three-band
computation against the spec's general contract. -/
def bandPartitionSpec : List (ℚ × Geom) → List (ℚ × Geom)
  | [] => []
  | [t] => [t]
  | (v, g) :: (w, h) :: rest => (v, g \ h) :: bandPartitionSpec ((w, h) :: rest)

/-- fraction (line 109): overlapping area of the unit with the band
divided by the unit's total area. -/
def fraction (u b : Geom) : ℚ := area (u ∩ b) / area u

/-- The AggregationRecords of one unit row (lines 99-111): one record per
band whose geometry intersects the unit, carrying (unit id, wind speed,
fraction, population at band = fraction times the unit total). -/
def unitRecords (ur : (ℕ × Geom) × ℚ) (bands : List (ℚ × Geom)) :
    List (ℕ × ℚ × ℚ × ℚ) :=
  (bands.filter (fun b => decide (ur.1.2 ∩ b.2).Nonempty)).map
    (fun b => (ur.1.1, b.1, fraction ur.1.2 b.2, fraction ur.1.2 b.2 * ur.2))

/-- final_data (lines 99-111): records for every intersecting
(administrative unit, band) pair of the pipeline. -/
def final_data (adm : List (ℕ × Geom)) (pts : List (Cell × ℚ))
    (bands : List (ℚ × Geom)) : List (ℕ × ℚ × ℚ × ℚ) :=
  (pop_by_adm adm pts).flatMap (fun ur => unitRecords ur bands)

/-- pandas round(2): round 100 times the value to the nearest integer and
divide back by 100 (exact halves never occur in any statement below, so
the tie-breaking direction is immaterial). -/
def round2 (x : ℚ) : ℚ := ((round (100 * x) : ℤ) : ℚ) / 100

/-- A pandas float cell: a finite rational, NaN, or a signed infinity. -/
inductive FVal where
  | num : ℚ → FVal
  | nan : FVal
  | inf : FVal
  | ninf : FVal
deriving DecidableEq, Repr

/-- IEEE division as pandas performs it at line 126: finite / 0 is NaN
when the numerator is 0 and a signed infinity otherwise; NaN propagates. -/
def FVal.div : FVal → FVal → FVal
  | .num a, .num b =>
      if b = 0 then (if a = 0 then .nan else if 0 < a then .inf else .ninf)
      else .num (a / b)
  | .nan, _ => .nan
  | _, .nan => .nan
  | .inf, .num b => if 0 ≤ b then .inf else .ninf
  | .ninf, .num b => if 0 ≤ b then .ninf else .inf
  | .num _, .inf => .num 0
  | .num _, .ninf => .num 0
  | .inf, .inf => .nan
  | .inf, .ninf => .nan
  | .ninf, .inf => .nan
  | .ninf, .ninf => .nan

/-- IEEE multiplication: NaN propagates, infinity times zero is NaN,
infinity times a nonzero finite keeps the product sign. -/
def FVal.mul : FVal → FVal → FVal
  | .num a, .num b => .num (a * b)
  | .nan, _ => .nan
  | _, .nan => .nan
  | .inf, .num b => if b = 0 then .nan else if 0 < b then .inf else .ninf
  | .num a, .inf => if a = 0 then .nan else if 0 < a then .inf else .ninf
  | .ninf, .num b => if b = 0 then .nan else if 0 < b then .ninf else .inf
  | .num a, .ninf => if a = 0 then .nan else if 0 < a then .ninf else .inf
  | .inf, .inf => .inf
  | .ninf, .ninf => .inf
  | .inf, .ninf => .ninf
  | .ninf, .inf => .ninf

/-- pandas round(2) on a float cell: NaN and infinities pass through. -/
def round2F : FVal → FVal
  | .num q => .num (round2 q)
  | v => v

/-- The population-at-band value of one (unit, band) pair before it enters
the wide table (lines 109-111): the fraction of the unit's area covered
by the band times the unit's total population, present only when the
pair intersects. -/
def peopleAtBand (u : Geom) (t : ℚ) (b : Geom) : Option ℚ :=
  if (u ∩ b).Nonempty then some (fraction u b * t) else none

/-- The People_at_XXkmph column cell (lines 119-124): initialised to NaN
and overwritten by the rounded population-at-band where the pair
intersects. -/
def peopleCol : Option ℚ → FVal
  | some a => .num (round2 a)
  | none => .nan

/-- The percent column cell (lines 126-128): the People_at column divided
by the unit total times 100, rounded to 2 decimals. -/
def pctColF (people : FVal) (total : ℚ) : FVal :=
  round2F ((people.div (.num total)).mul (.num 100))

/-- The per-band percentage of one unit in the final table, end to end. -/
def pctAtBand (u : Geom) (t : ℚ) (b : Geom) : FVal :=
  pctColF (peopleCol (peopleAtBand u t b)) t

/-- One row of the final wide table (lines 119-132): unit id, total
population, the three absolute People_at columns and the three percent
columns, for bands b60, b90, b120. -/
def outputRow (ur : (ℕ × Geom) × ℚ) (b60 b90 b120 : Geom) :
    ℕ × ℚ × (FVal × FVal × FVal) × (FVal × FVal × FVal) :=
  (ur.1.1, ur.2,
    (peopleCol (peopleAtBand ur.1.2 ur.2 b60),
     peopleCol (peopleAtBand ur.1.2 ur.2 b90),
     peopleCol (peopleAtBand ur.1.2 ur.2 b120)),
    (pctAtBand ur.1.2 ur.2 b60,
     pctAtBand ur.1.2 ur.2 b90,
     pctAtBand ur.1.2 ur.2 b120))

/-- pop_by_adm after lines 119-132: the final table written to the
spreadsheet, one row per unit of pop_by_adm (the later stages only add
columns, so the row set of line 55 is exactly the row set of line 132). -/
def outputTable (adm : List (ℕ × Geom)) (pts : List (Cell × ℚ))
    (b60 b90 b120 : Geom) :
    List (ℕ × ℚ × (FVal × FVal × FVal) × (FVal × FVal × FVal)) :=
  (pop_by_adm adm pts).map (fun ur => outputRow ur b60 b90 b120)

/-! Concrete inputs used by witnesses and counterexamples. -/

/-- Scenario A raster: a 2 by 2 grid with values 10, 20, 30, 40 and no
no-data cell. -/
def raster22 : List (Cell × ℚ) := [((0, 0), 10), ((1, 0), 20), ((0, 1), 30), ((1, 1), 40)]

/-- A single administrative polygon covering the full 2 by 2 extent. -/
def sqPoly : Geom := {(0, 0), (1, 0), (0, 1), (1, 1)}

/-- A one-cell geometry. -/
def wU : Geom := {(0, 0)}

/-- A one-cell geometry away from wU. -/
def wV : Geom := {(5, 5)}

/-- A three-cell outer wind polygon. -/
def w60 : Geom := {(0, 0), (1, 0), (2, 0)}

/-- A two-cell middle wind polygon nested in w60. -/
def w90 : Geom := {(0, 0), (1, 0)}

/-- A one-cell inner wind polygon nested in w90. -/
def w120 : Geom := {(0, 0)}

/-! Shared helper lemmas. -/

lemma fraction_nonneg (u b : Geom) : 0 ≤ fraction u b := by
  unfold fraction area
  positivity

lemma fraction_le_one (u b : Geom) : fraction u b ≤ 1 := by
  unfold fraction area
  apply div_le_one_of_le₀
  · exact_mod_cast Finset.card_le_card (Finset.inter_subset_left)
  · positivity

lemma mem_pop_by_adm {adm : List (ℕ × Geom)} {pts : List (Cell × ℚ)}
    {ur : (ℕ × Geom) × ℚ} (h : ur ∈ pop_by_adm adm pts) :
    ur.1 ∈ adm ∧ ur.2 = ((ptsIn ur.1.2 pts).map (fun p => p.2)).sum ∧
      ptsIn ur.1.2 pts ≠ [] := by
  simp only [pop_by_adm, List.mem_map, List.mem_filter] at h
  obtain ⟨v, ⟨hv, hne⟩, rfl⟩ := h
  refine ⟨hv, rfl, ?_⟩
  simpa using hne

lemma total_nonneg {pts : List (Cell × ℚ)} (hw : ∀ p ∈ pts, 0 ≤ p.2)
    (g : Geom) : 0 ≤ ((ptsIn g pts).map (fun p => p.2)).sum := by
  apply List.sum_nonneg
  intro x hx
  simp only [ptsIn, List.mem_map, List.mem_filter] at hx
  obtain ⟨p, ⟨hp, _⟩, rfl⟩ := hx
  exact hw p hp

lemma sum_filter_le_sum (l : List (ℚ × Geom)) (P : ℚ × Geom → Bool)
    (f : ℚ × Geom → ℚ) (h : ∀ x ∈ l, 0 ≤ f x) :
    ((l.filter P).map f).sum ≤ (l.map f).sum := by
  induction l with
  | nil => simp
  | cons x xs ih =>
    have hx := h x (List.mem_cons_self _ _)
    have hxs := ih (fun y hy => h y (List.mem_cons_of_mem _ hy))
    by_cases hP : P x
    · simpa [List.filter_cons, hP] using add_le_add_left hxs (f x)
    · simp only [List.filter_cons, hP, Bool.false_eq_true, if_false, List.map_cons, List.sum_cons]
      calc ((xs.filter P).map f).sum ≤ (xs.map f).sum := hxs
        _ ≤ f x + (xs.map f).sum := le_add_of_nonneg_left hx

lemma growOnce_fixed (cells : List (Cell × ℚ)) (c : Cell) (v : ℚ)
    (h : ∀ p ∈ cells, p.1 ∈ neighbors c → p.2 ≠ v) :
    growOnce cells v [c] = [c] := by
  unfold growOnce
  have hfil : cells.filter (fun p =>
      p.2 == v && !([c].contains p.1) && [c].any (fun x => (neighbors x).contains p.1)) = [] := by
    rw [List.filter_eq_nil_iff]
    intro p hp hpred
    simp only [Bool.and_eq_true, beq_iff_eq, List.any_cons, List.any_nil, Bool.or_false,
      List.elem_iff, decide_eq_true_eq] at hpred
    exact h p hp hpred.2 hpred.1.1
  rw [hfil]
  simp

lemma component_singleton (cells : List (Cell × ℚ)) (c : Cell) (v : ℚ)
    (h : ∀ p ∈ cells, p.1 ∈ neighbors c → p.2 ≠ v) :
    component cells c v = [c] :=
  Function.iterate_fixed (growOnce_fixed cells c v h) cells.length

lemma shapesGo_sum (fuel : ℕ) : ∀ cells : List (Cell × ℚ),
    cells.length ≤ fuel →
    (cells.map (fun p => p.1)).Nodup →
    (∀ p ∈ cells, ∀ q ∈ cells, p.1 ∈ neighbors q.1 → p.2 ≠ q.2) →
    ((shapesGo fuel cells).map (fun s => s.2)).sum = (cells.map (fun p => p.2)).sum := by
  induction fuel with
  | zero =>
    intro cells hlen _ _
    rw [List.length_eq_zero.mp (Nat.le_zero.mp hlen)]
    rfl
  | succ n ih =>
    intro cells hlen hnd hadj
    match cells with
    | [] => rfl
    | (c, v) :: rest =>
      have hcomp : component ((c, v) :: rest) c v = [c] :=
        component_singleton _ _ _
          (fun p hp hpn => hadj p hp (c, v) (List.mem_cons_self _ _) hpn)
      simp only [List.map_cons] at hnd
      have hfil : rest.filter (fun p => !([c].contains p.1)) = rest := by
        rw [List.filter_eq_self]
        intro p hp
        have hne : p.1 ≠ c := by
          intro hc
          exact (List.nodup_cons.mp hnd).1 (hc ▸ List.mem_map_of_mem (fun q => q.1) hp)
        simp [hne]
      simp only [shapesGo, hcomp, hfil, List.map_cons, List.sum_cons]
      congr 1
      refine ih rest (Nat.le_of_succ_le_succ hlen) (List.nodup_cons.mp hnd).2 ?_
      exact fun p hp q hq => hadj p (List.mem_cons_of_mem _ hp) q (List.mem_cons_of_mem _ hq)

/-! Claim C1: mass conservation of the raster-to-point sampling. -/

/-- C1 counterexample: on a raster of two adjacent cells both holding 5,
rasterio.features.shapes merges the cells into one region carrying the
value 5 once, so the weights sum to 5 while the cell values sum to 10.
The claim that every cell's value is counted exactly once is false. -/
theorem C1_mass_conservation_counterexample :
    ((shapesOf [((0, 0), (5 : ℚ)), ((1, 0), 5)]).map (fun s => s.2)).sum ≠
      ([((0, 0), (5 : ℚ)), ((1, 0), 5)].map (fun p => p.2)).sum := by
  have h1 : ((shapesOf [((0, 0), (5 : ℚ)), ((1, 0), 5)]).map (fun s => s.2)).sum = 5 := by
    with_unfolding_all rfl
  have h2 : ([((0, 0), (5 : ℚ)), ((1, 0), 5)].map (fun p => p.2)).sum = 10 := by
    with_unfolding_all rfl
  rw [h1, h2]
  norm_num

/-- C1 amended: the sampling stage conserves mass whenever no two
edge-adjacent non-masked cells carry an identical value, so that every
contiguous region is a single cell; then the sum of the sampled weights
equals the sum of the non-masked cell values.  (In general the weights
sum to one value per merged region, as the counterexample shows.) -/
theorem C1_mass_conservation (cells : List (Cell × ℚ))
    (hnd : (cells.map (fun p => p.1)).Nodup)
    (hadj : ∀ p ∈ cells, ∀ q ∈ cells, p.1 ∈ neighbors q.1 → p.2 ≠ q.2) :
    ((shapesOf cells).map (fun s => s.2)).sum = (cells.map (fun p => p.2)).sum :=
  shapesGo_sum cells.length cells le_rfl hnd hadj

/-- C1 witness: the Scenario A raster has pairwise distinct values, and
its sampled weights sum to the full cell total 100. -/
theorem C1_mass_conservation_witness :
    ((shapesOf raster22).map (fun s => s.2)).sum = (raster22.map (fun p => p.2)).sum :=
  C1_mass_conservation raster22 (by decide)
    (by intro p hp q hq hn; fin_cases hp <;> fin_cases hq <;> revert hn <;> decide)

/-! Claim C2: the band partitioner subtracts the next-higher threshold
polygon from each threshold polygon and keeps the highest unmodified. -/

/-- C2: on the ascending-sorted threshold rows 60, 90, 120 the script
computes exactly band60 = poly60 minus poly90, band90 = poly90 minus
poly120, band120 = poly120 (first conjunct), and this coincides with the
general next-higher-subtraction contract applied to the same sorted
sequence (second conjunct). -/
theorem C2_band_partition (p60 p90 p120 : Geom) :
    cycloneBands [(60, p60), (90, p90), (120, p120)] = .ok (bandsOf p60 p90 p120) ∧
    bandPartitionSpec [(60, p60), (90, p90), (120, p120)] = bandsOf p60 p90 p120 :=
  ⟨rfl, rfl⟩

/-! Claim C3: under nesting, bands are pairwise disjoint and cover the
lowest-threshold polygon. -/

/-- C3: if the threshold polygons are nested, any two distinct bands have
empty intersection (in particular empty interior intersection) and the
union of the three bands is exactly the lowest-threshold polygon. -/
theorem C3_band_disjoint_union (p60 p90 p120 : Geom)
    (h1 : p120 ⊆ p90) (h2 : p90 ⊆ p60) :
    (∀ b1 ∈ bandsOf p60 p90 p120, ∀ b2 ∈ bandsOf p60 p90 p120,
      b1 ≠ b2 → b1.2 ∩ b2.2 = ∅) ∧
    ((bandsOf p60 p90 p120).map (fun b => b.2)).foldr (· ∪ ·) ∅ = p60 := by
  constructor
  · intro b1 hb1 b2 hb2 hne
    simp only [bandsOf, List.mem_cons, List.not_mem_nil, or_false] at hb1 hb2
    rcases hb1 with rfl | rfl | rfl <;> rcases hb2 with rfl | rfl | rfl <;>
      first
        | exact absurd rfl hne
        | (apply Finset.eq_empty_of_forall_not_mem
           intro x hx
           have hx1 := @h1 x
           have hx2 := @h2 x
           simp only [Finset.mem_inter, Finset.mem_sdiff] at hx
           tauto)
  · simp only [bandsOf, List.map_cons, List.map_nil, List.foldr_cons, List.foldr_nil]
    ext x
    have hx1 := @h1 x
    have hx2 := @h2 x
    simp only [Finset.mem_union, Finset.mem_sdiff, Finset.not_mem_empty, or_false]
    tauto

/-- C3 witness: concrete nested polygons of three, two and one cells. -/
theorem C3_band_disjoint_union_witness :
    (∀ b1 ∈ bandsOf w60 w90 w120, ∀ b2 ∈ bandsOf w60 w90 w120,
      b1 ≠ b2 → b1.2 ∩ b2.2 = ∅) ∧
    ((bandsOf w60 w90 w120).map (fun b => b.2)).foldr (· ∪ ·) ∅ = w60 :=
  C3_band_disjoint_union w60 w90 w120 (by decide) (by decide)

/-! Claim C4: every aggregation record's fraction lies in [0, 1]. -/

/-- C4: every record of the overlay-apportionment stage carries a fraction
(overlap area over unit area, both in the area-preserving system the
cell model stands for) between 0 and 1. -/
theorem C4_fraction_bounds (adm : List (ℕ × Geom)) (pts : List (Cell × ℚ))
    (bands : List (ℚ × Geom)) (r : ℕ × ℚ × ℚ × ℚ)
    (hr : r ∈ final_data adm pts bands) :
    0 ≤ r.2.2.1 ∧ r.2.2.1 ≤ 1 := by
  simp only [final_data, List.mem_flatMap] at hr
  obtain ⟨ur, _, hr⟩ := hr
  simp only [unitRecords, List.mem_map, List.mem_filter] at hr
  obtain ⟨b, _, rfl⟩ := hr
  exact ⟨fraction_nonneg _ _, fraction_le_one _ _⟩

/-- C4 witness: a single unit covering one cell fully inside a single
band yields the record (0, 60, 1, 1), whose fraction 1 is in bounds. -/
theorem C4_fraction_bounds_witness :
    0 ≤ (((0 : ℕ), (60 : ℚ), (1 : ℚ), (1 : ℚ))).2.2.1 ∧
      (((0 : ℕ), (60 : ℚ), (1 : ℚ), (1 : ℚ))).2.2.1 ≤ 1 :=
  C4_fraction_bounds [(0, wU)] [((0, 0), 1)] [(60, wU)] (0, 60, 1, 1)
    (by rw [show final_data [(0, wU)] [((0, 0), 1)] [(60, wU)] = [(0, 60, 1, 1)] from by
          with_unfolding_all rfl]
        exact List.mem_singleton_self _)

/-! Claim C5: per unit, the populations at band sum to at most the unit
total. -/

/-- C5: for every administrative unit in the output, if the threshold
polygons are nested and the point weights are non-negative, the sum of
population_at_band over the bands intersecting the unit is at most the
unit's total population. -/
theorem C5_exposure_bound (adm : List (ℕ × Geom)) (pts : List (Cell × ℚ))
    (p60 p90 p120 : Geom) (ur : (ℕ × Geom) × ℚ)
    (h1 : p120 ⊆ p90) (h2 : p90 ⊆ p60)
    (hw : ∀ p ∈ pts, 0 ≤ p.2)
    (hur : ur ∈ pop_by_adm adm pts) :
    ((unitRecords ur (bandsOf p60 p90 p120)).map (fun r => r.2.2.2)).sum ≤ ur.2 := by
  obtain ⟨-, hsum, -⟩ := mem_pop_by_adm hur
  have ht : 0 ≤ ur.2 := hsum ▸ total_nonneg hw ur.1.2
  have hterm : ∀ b ∈ bandsOf p60 p90 p120, 0 ≤ fraction ur.1.2 b.2 * ur.2 :=
    fun b _ => mul_nonneg (fraction_nonneg _ _) ht
  have hstep1 :
      ((unitRecords ur (bandsOf p60 p90 p120)).map (fun r => r.2.2.2)).sum =
        (((bandsOf p60 p90 p120).filter
            (fun b => decide (ur.1.2 ∩ b.2).Nonempty)).map
          (fun b => fraction ur.1.2 b.2 * ur.2)).sum := by
    simp only [unitRecords, List.map_map]
    rfl
  have hstep2 :
      (((bandsOf p60 p90 p120).filter
          (fun b => decide (ur.1.2 ∩ b.2).Nonempty)).map
        (fun b => fraction ur.1.2 b.2 * ur.2)).sum ≤
        ((bandsOf p60 p90 p120).map (fun b => fraction ur.1.2 b.2 * ur.2)).sum :=
    sum_filter_le_sum _ _ _ hterm
  have hd1 : Disjoint (ur.1.2 ∩ (p60 \ p90)) (ur.1.2 ∩ (p90 \ p120)) := by
    rw [Finset.disjoint_left]
    intro x hx hy
    simp only [Finset.mem_inter, Finset.mem_sdiff] at hx hy
    exact hx.2.2 hy.2.1
  have hd2 : Disjoint (ur.1.2 ∩ (p60 \ p90) ∪ ur.1.2 ∩ (p90 \ p120)) (ur.1.2 ∩ p120) := by
    rw [Finset.disjoint_left]
    intro x hx hy
    simp only [Finset.mem_union, Finset.mem_inter, Finset.mem_sdiff] at hx hy
    rcases hx with hx | hx
    · exact hx.2.2 (h1 hy.2)
    · exact hx.2.2 hy.2
  have hcard :
      (ur.1.2 ∩ (p60 \ p90)).card + (ur.1.2 ∩ (p90 \ p120)).card + (ur.1.2 ∩ p120).card =
        (ur.1.2 ∩ (p60 \ p90) ∪ ur.1.2 ∩ (p90 \ p120) ∪ ur.1.2 ∩ p120).card := by
    rw [Finset.card_union_of_disjoint hd2, Finset.card_union_of_disjoint hd1]
  have hsub : ur.1.2 ∩ (p60 \ p90) ∪ ur.1.2 ∩ (p90 \ p120) ∪ ur.1.2 ∩ p120 ⊆ ur.1.2 := by
    intro x hx
    simp only [Finset.mem_union, Finset.mem_inter] at hx
    tauto
  have hnat :
      (ur.1.2 ∩ (p60 \ p90)).card + (ur.1.2 ∩ (p90 \ p120)).card + (ur.1.2 ∩ p120).card ≤
        ur.1.2.card := by
    rw [hcard]
    exact Finset.card_le_card hsub
  have hcards :
      ((ur.1.2 ∩ (p60 \ p90)).card : ℚ) + ((ur.1.2 ∩ (p90 \ p120)).card : ℚ) +
        ((ur.1.2 ∩ p120).card : ℚ) ≤ (ur.1.2.card : ℚ) := by
    exact_mod_cast hnat
  have hfrac :
      fraction ur.1.2 (p60 \ p90) + fraction ur.1.2 (p90 \ p120) +
        fraction ur.1.2 p120 ≤ 1 := by
    unfold fraction area
    rw [div_add_div_same, div_add_div_same]
    exact div_le_one_of_le₀ hcards (by positivity)
  have hstep3 :
      ((bandsOf p60 p90 p120).map (fun b => fraction ur.1.2 b.2 * ur.2)).sum ≤ ur.2 := by
    simp only [bandsOf, List.map_cons, List.map_nil, List.sum_cons, List.sum_nil, add_zero]
    calc fraction ur.1.2 (p60 \ p90) * ur.2 +
          (fraction ur.1.2 (p90 \ p120) * ur.2 + fraction ur.1.2 p120 * ur.2)
        = (fraction ur.1.2 (p60 \ p90) + fraction ur.1.2 (p90 \ p120) +
            fraction ur.1.2 p120) * ur.2 := by ring
      _ ≤ 1 * ur.2 := mul_le_mul_of_nonneg_right hfrac ht
      _ = ur.2 := one_mul ur.2
  exact hstep1 ▸ le_trans hstep2 hstep3

/-- C5 witness: Scenario A unit and population with the concrete nested
wind polygons; the three band populations sum to at most 100. -/
theorem C5_exposure_bound_witness :
    ((unitRecords ((0, sqPoly), 100) (bandsOf w60 w90 w120)).map
        (fun r => r.2.2.2)).sum ≤ ((0, sqPoly), (100 : ℚ)).2 :=
  C5_exposure_bound [(0, sqPoly)] (samplePoints (shapesOf raster22)) w60 w90 w120
    ((0, sqPoly), 100) (by decide) (by decide)
    (by intro p hp; fin_cases hp <;> norm_num)
    (by rw [show pop_by_adm [(0, sqPoly)] (samplePoints (shapesOf raster22)) =
          [((0, sqPoly), 100)] from by with_unfolding_all rfl]
        exact List.mem_singleton_self _)

/-! Claim C6: the spatial aggregation sums, per polygon, exactly the
weights of the points satisfying the containment predicate. -/

/-- C6: every unit row of the aggregation stage carries the sum of the
weights of exactly the points satisfying the containment predicate
against that unit's polygon (a point inside several polygons counts once
in each); moreover, Scenario A: the 2 by 2 raster with values 10, 20,
30, 40 sampled into 4 points and aggregated over one polygon covering
the full extent reports the total 100. -/
theorem C6_spatial_aggregation (adm : List (ℕ × Geom)) (pts : List (Cell × ℚ))
    (ur : (ℕ × Geom) × ℚ) (hur : ur ∈ pop_by_adm adm pts) :
    ur.2 = ((pts.filter (fun p => p.1 ∈ ur.1.2)).map (fun p => p.2)).sum ∧
    pop_by_adm [(0, sqPoly)] (samplePoints (shapesOf raster22)) = [((0, sqPoly), 100)] :=
  ⟨(mem_pop_by_adm hur).2.1, by with_unfolding_all rfl⟩

/-- C6 witness: the Scenario A instance itself, through the theorem. -/
theorem C6_spatial_aggregation_witness :
    (((0, sqPoly), (100 : ℚ)) : (ℕ × Geom) × ℚ).2 =
      (((samplePoints (shapesOf raster22)).filter
          (fun p => p.1 ∈ (((0, sqPoly), (100 : ℚ)) : (ℕ × Geom) × ℚ).1.2)).map
        (fun p => p.2)).sum ∧
    pop_by_adm [(0, sqPoly)] (samplePoints (shapesOf raster22)) = [((0, sqPoly), 100)] :=
  C6_spatial_aggregation [(0, sqPoly)] (samplePoints (shapesOf raster22))
    ((0, sqPoly), 100)
    (by rw [show pop_by_adm [(0, sqPoly)] (samplePoints (shapesOf raster22)) =
          [((0, sqPoly), 100)] from by with_unfolding_all rfl]
        exact List.mem_singleton_self _)

/-! Claim C7: rounding only at presentation time. -/

/-- C7 counterexample: a unit covering one cell fully inside the band with
total population 3/500.  The population at band is 3/500; the claim says
the reported percentage is round2(3/500 divided by 3/500 times 100) =
100.00, but the script first rounds the absolute to 0.01 (line 120) and
then computes the percentage from the rounded value (line 126), giving
round2(0.01 / (3/500) * 100) = 166.67. -/
theorem C7_rounding_counterexample :
    pctAtBand wU (3 / 500) wU ≠
      round2F (.num ((fraction wU wU * (3 / 500)) / (3 / 500) * 100)) := by
  have h1 : pctAtBand wU (3 / 500) wU = .num (16667 / 100) := by
    with_unfolding_all rfl
  have h2 : round2F (.num ((fraction wU wU * (3 / 500)) / (3 / 500) * 100)) = .num 100 := by
    with_unfolding_all rfl
  rw [h1, h2]
  intro h
  have := FVal.num.inj h
  norm_num at this

/-- C7 amended: the percentage column is computed from the already-rounded
People_at column: it equals round2(round2(absolute) / total times 100);
only when the absolute population is already an exact multiple of 0.01
does it coincide with the claimed round2(absolute / total times 100). -/
theorem C7_rounding (a t : ℚ) (ht : t ≠ 0) :
    pctColF (peopleCol (some a)) t = .num (round2 (round2 a / t * 100)) ∧
    (round2 a = a → pctColF (peopleCol (some a)) t = .num (round2 (a / t * 100))) := by
  have hmain : pctColF (peopleCol (some a)) t = .num (round2 (round2 a / t * 100)) := by
    simp only [pctColF, peopleCol, FVal.div, if_neg ht, FVal.mul, round2F]
  exact ⟨hmain, fun hr => by rw [hmain, hr]⟩

/-- C7 witness: absolute 1/4 (already two decimals), total 2. -/
theorem C7_rounding_witness :
    pctColF (peopleCol (some (1 / 4))) 2 = .num (round2 (round2 (1 / 4) / 2 * 100)) ∧
    (round2 (1 / 4) = 1 / 4 →
      pctColF (peopleCol (some (1 / 4))) 2 = .num (round2 ((1 / 4) / 2 * 100))) :=
  C7_rounding (1 / 4) 2 (by norm_num)

/-! Claim C8: error behaviour of the band-partitioning stage. -/

lemma itemG_ok_iff (l : List Geom) : (∃ g, itemG l = .ok g) ↔ l.length = 1 := by
  match l with
  | [] => simp [itemG]
  | [g] => simp [itemG]
  | g1 :: g2 :: t => simp [itemG]

/-- C8 counterexample: with the three wind thresholds present but all
three polygons equal, both subtractions are empty, yet the stage raises
nothing and returns a band set containing two empty bands - there is no
DegenerateGeometryError (nor any InsufficientBandsError) anywhere in the
script. -/
theorem C8_band_errors_counterexample :
    cycloneBands [(60, wU), (90, wU), (120, wU)] = .ok [(60, ∅), (90, ∅), (120, wU)] := by
  with_unfolding_all rfl

/-- C8 amended: the stage returns a band set exactly when each of the
three wind speeds 60, 90, 120 selects exactly one row; any other
configuration (in particular fewer than two thresholds) makes the
single-element selection raise pandas' generic item error, not an
InsufficientBandsError.  No degenerate-geometry condition is detected:
as the counterexample shows, empty subtraction results are returned as
ordinary bands. -/
theorem C8_band_errors (rows : List (ℚ × Geom)) :
    (∃ bands, cycloneBands rows = .ok bands) ↔
      ((rows.filter (fun r => r.1 == 60)).length = 1 ∧
       (rows.filter (fun r => r.1 == 90)).length = 1 ∧
       (rows.filter (fun r => r.1 == 120)).length = 1) := by
  rcases h60 : itemG ((rows.filter (fun r => r.1 == 60)).map (fun r => r.2)) with e | p60
  · have hlen : ¬ (rows.filter (fun r => r.1 == 60)).length = 1 := by
      intro h
      obtain ⟨g, hg⟩ :=
        (itemG_ok_iff ((rows.filter (fun r => r.1 == 60)).map (fun r => r.2))).mpr
          (by simpa using h)
      rw [h60] at hg
      exact Except.noConfusion hg
    simp [cycloneBands, h60, hlen]
  · have h60len : (rows.filter (fun r => r.1 == 60)).length = 1 := by
      have := (itemG_ok_iff _).mp ⟨p60, h60⟩
      simpa using this
    rcases h90 : itemG ((rows.filter (fun r => r.1 == 90)).map (fun r => r.2)) with e | p90
    · have hlen : ¬ (rows.filter (fun r => r.1 == 90)).length = 1 := by
        intro h
        obtain ⟨g, hg⟩ :=
          (itemG_ok_iff ((rows.filter (fun r => r.1 == 90)).map (fun r => r.2))).mpr
            (by simpa using h)
        rw [h90] at hg
        exact Except.noConfusion hg
      simp [cycloneBands, h60, h90, hlen]
    · have h90len : (rows.filter (fun r => r.1 == 90)).length = 1 := by
        have := (itemG_ok_iff _).mp ⟨p90, h90⟩
        simpa using this
      rcases h120 : itemG ((rows.filter (fun r => r.1 == 120)).map (fun r => r.2)) with e | p120
      · have hlen : ¬ (rows.filter (fun r => r.1 == 120)).length = 1 := by
          intro h
          obtain ⟨g, hg⟩ :=
            (itemG_ok_iff ((rows.filter (fun r => r.1 == 120)).map (fun r => r.2))).mpr
              (by simpa using h)
          rw [h120] at hg
          exact Except.noConfusion hg
        simp [cycloneBands, h60, h90, h120, hlen]
      · have h120len : (rows.filter (fun r => r.1 == 120)).length = 1 := by
          have := (itemG_ok_iff _).mp ⟨p120, h120⟩
          simpa using this
        simp [cycloneBands, h60, h90, h120, h60len, h90len, h120len]

/-! Claim C9: zero unit total yields a NaN percentage, not an error. -/

/-- C9: for a unit of the output whose total population is 0, every
per-band percentage cell of its final-table row is NaN (the pandas
not-computed marker), produced by a total 0/0 division rather than by an
exception - the presentation stage is a total function. -/
theorem C9_zero_total_not_computed (adm : List (ℕ × Geom)) (pts : List (Cell × ℚ))
    (b60 b90 b120 : Geom) (ur : (ℕ × Geom) × ℚ)
    (hur : ur ∈ pop_by_adm adm pts) (h0 : ur.2 = 0) :
    (outputRow ur b60 b90 b120).2.2.2 = (FVal.nan, FVal.nan, FVal.nan) := by
  have key : ∀ u b : Geom, pctAtBand u 0 b = FVal.nan := by
    intro u b
    unfold pctAtBand peopleAtBand
    by_cases h : (u ∩ b).Nonempty
    · rw [if_pos h, mul_zero]
      show pctColF (peopleCol (some 0)) 0 = FVal.nan
      with_unfolding_all rfl
    · rw [if_neg h]
      show pctColF (peopleCol none) 0 = FVal.nan
      with_unfolding_all rfl
  simp only [outputRow, h0, key]

/-- C9 witness: a unit holding a single point of weight 0 (a raster cell
whose population value is 0) has total 0 and all three percentage cells
NaN. -/
theorem C9_zero_total_not_computed_witness :
    (outputRow ((0, wU), 0) wU wV ∅).2.2.2 = (FVal.nan, FVal.nan, FVal.nan) :=
  C9_zero_total_not_computed [(0, wU)] [((0, 0), 0)] wU wV ∅ ((0, wU), 0)
    (by rw [show pop_by_adm [(0, wU)] [((0, 0), 0)] = [((0, wU), 0)] from by
          with_unfolding_all rfl]
        exact List.mem_singleton_self _)
    rfl

/-! Claim C10: units matching no population point are absent from the
output. -/

/-- C10: a unit that intersects no population point produces no row of
pop_by_adm and no row of the final table (the spatial join at line 43 is
an inner join, and later stages only add columns to its groupby). -/
theorem C10_inner_join_absent (adm : List (ℕ × Geom)) (pts : List (Cell × ℚ))
    (b60 b90 b120 : Geom) (u : ℕ × Geom)
    (hu : u ∈ adm) (hids : (adm.map (fun v => v.1)).Nodup)
    (hnone : ∀ p ∈ pts, p.1 ∉ u.2) :
    (∀ s, (u, s) ∉ pop_by_adm adm pts) ∧
    (∀ row ∈ outputTable adm pts b60 b90 b120, row.1 ≠ u.1) := by
  have hempty : ptsIn u.2 pts = [] := by
    rw [ptsIn, List.filter_eq_nil_iff]
    intro p hp hmem
    exact hnone p hp (by simpa using hmem)
  constructor
  · intro s hmem
    obtain ⟨-, -, hne⟩ := mem_pop_by_adm hmem
    exact hne hempty
  · intro row hrow hEq
    simp only [outputTable, List.mem_map] at hrow
    obtain ⟨ur, hur, rfl⟩ := hrow
    obtain ⟨hmem, -, hne⟩ := mem_pop_by_adm hur
    have hfst : ur.1.1 = u.1 := hEq
    have : ur.1 = u := List.inj_on_of_nodup_map hids hmem hu hfst
    rw [this] at hne
    exact hne hempty

/-- C10 witness: a second unit away from the single population point is
absent from pop_by_adm (checked here at an arbitrary total, 37). -/
theorem C10_inner_join_absent_witness :
    ((1, wV), (37 : ℚ)) ∉ pop_by_adm [(0, wU), (1, wV)] [((0, 0), 1)] :=
  (C10_inner_join_absent [(0, wU), (1, wV)] [((0, 0), 1)] wU wU wU (1, wV)
    (by decide) (by decide) (by decide)).1 37
